import Mathlib

/-!
Verification development for the HCI protocol engine of
packages_modules_Bluetooth (system/gd/hci).

The engine implementation (hci_layer.cc) is exercised by
system/gd/hci/hci_layer_test.cc; the engine itself is modelled here from
the specification (spec.md, sections 3-5), since only its test file is in
the source tree.  PacketStream (system/vendor_libs/test_vendor_lib) is
likewise modelled from its header's documented contract.

Machine integers are modelled as Nat with explicit bounds where the wire
format requires them.
-/

namespace Hci

/-- A typed outbound HCI command: a 16-bit opcode and a parameter payload
of octets.  Mirrors the `CommandBuilder`/`CommandView` pair of the packet
codec boundary. -/
structure CommandPkt where
  opcode : Nat
  payload : List Nat
deriving DecidableEq, Repr

/-- An inbound HCI event: an 8-bit event code and a parameter payload of
octets.  Mirrors `EventView`. -/
structure EventPkt where
  code : Nat
  payload : List Nat
deriving DecidableEq, Repr

/-- Event code of Command Complete events. -/
def eventCodeCommandComplete : Nat := 0x0E

/-- Event code of Command Status events. -/
def eventCodeCommandStatus : Nat := 0x0F

/-- Event code of LE Meta events. -/
def eventCodeLeMeta : Nat := 0x3E

/-- Event code of Connection Complete events. -/
def eventCodeConnectionComplete : Nat := 0x03

/-- Opcode of the HCI Reset command (OGF 0x03, OCF 0x003). -/
def opcodeReset : Nat := 0x0C03

/-- Opcode value NONE, used by no-op Command Complete events that carry
credits without answering any command. -/
def opcodeNone : Nat := 0x0000

/-- Modelled from the spec: opcode of the vendor diagnostic command
CONTROLLER_DEBUG_INFO issued by the liveness escalation of the
Command/Credit Manager (hci_layer.cc is not in the source tree; the test
only checks the sent command decodes to this opcode). -/
def opcodeControllerDebugInfo : Nat := 0xFC5B

/-- Modelled from the spec: a Pending Command Entry of the Command/Credit
Manager (spec section 3): the owned builder together with its one-shot
continuation, identified here by a numeric id so that continuation
invocations can be recorded in a log. -/
structure PendingEntry where
  cmd : CommandPkt
  contId : Nat
deriving DecidableEq, Repr

/-- Modelled from the spec: the state of the Command/Credit Manager
(hci_layer.cc is not in the source tree).  `sentCommands` is the log of
commands handed to the HAL command sink, in send order; `delivered`
records each continuation invocation as (entry, decoded response view),
in invocation order. -/
structure CmState where
  creditCount : Nat
  commandQueue : List PendingEntry
  awaiting : List PendingEntry
  sentCommands : List CommandPkt
  delivered : List (PendingEntry × EventPkt)
deriving DecidableEq, Repr

/-- Worker of `Drain()`: iterates on the remaining credit and the
remaining FIFO, sending the front entry and spending one credit per
round. -/
def drainGo : CmState → Nat → List PendingEntry → CmState
  | s, c + 1, e :: rest =>
      drainGo { s with
        sentCommands := s.sentCommands ++ [e.cmd]
        awaiting := s.awaiting ++ [e] } c rest
  | s, c, q => { s with creditCount := c, commandQueue := q }

/-- Modelled from the spec: `Drain()` of the Command/Credit Manager
(spec 4.1): while credit is positive and the FIFO is non-empty, pop the
front entry, send it via the HAL command sink, decrement the credit, and
record the entry as awaiting a response in submission order. -/
def drain (s : CmState) : CmState :=
  drainGo s s.creditCount s.commandQueue

/-- Modelled from the spec: `Enqueue(builder, continuation)` (spec 4.1):
append a Pending Command Entry to the FIFO, then attempt to drain. -/
def enqueueCommand (s : CmState) (e : PendingEntry) : CmState :=
  drain { s with commandQueue := s.commandQueue ++ [e] }

/-- Modelled from the spec: `OnCommandStatusOrComplete(event_view)`
(spec 4.1): overwrite the credit count with the event's
num_hci_command_packets field `n`, resolve the oldest awaiting entry by
invoking its continuation with the decoded view (unless the event is a
no-op credit report, opcode NONE, or nothing is awaiting), then drain
again. -/
def onCommandResponse (s : CmState) (n : Nat) (op : Nat) (ev : EventPkt) :
    CmState :=
  let s1 := { s with creditCount := n }
  if op = opcodeNone then
    drain s1
  else
    match s1.awaiting with
    | [] => drain s1
    | e :: rest =>
        drain { s1 with
          awaiting := rest
          delivered := s1.delivered ++ [(e, ev)] }

/-- An action on the Command/Credit Manager, as driven by the engine: an
upper-layer `EnqueueCommand`, or an inbound Command Complete/Status event
carrying `num_hci_command_packets = n` for the command with opcode `op`
(opcode NONE marks the controller's no-op credit report). -/
inductive CmAction where
  | enq (e : PendingEntry)
  | resp (n : Nat) (op : Nat) (ev : EventPkt)
deriving DecidableEq, Repr

/-- One engine step on the Command/Credit Manager. -/
def cmStep (s : CmState) : CmAction → CmState
  | .enq e => enqueueCommand s e
  | .resp n op ev => onCommandResponse s n op ev

/-- Run a sequence of actions on the Command/Credit Manager. -/
def cmRun (s : CmState) : List CmAction → CmState
  | [] => s
  | a :: rest => cmRun (cmStep s a) rest

/-- The Command/Credit Manager as it stands right after startup has
primed the credit count: empty FIFO, nothing awaiting, nothing sent. -/
def initCm (c : Nat) : CmState :=
  { creditCount := c
    commandQueue := []
    awaiting := []
    sentCommands := []
    delivered := [] }

/-- The commands submitted in a trace, in submission order. -/
def submitted : List CmAction → List PendingEntry
  | [] => []
  | .enq e :: rest => e :: submitted rest
  | .resp _ _ _ :: rest => submitted rest

/-- The pending-entry-resolving response events of a trace (Command
Complete/Status events other than no-op credit reports), in arrival
order. -/
def respEvents : List CmAction → List EventPkt
  | [] => []
  | .enq _ :: rest => respEvents rest
  | .resp _ op ev :: rest =>
      if op = opcodeNone then respEvents rest else ev :: respEvents rest

/-- A controller is well behaved on a trace when every resolving response
it produces answers a command that is actually outstanding (sent and not
yet answered). -/
def wellBehaved (s : CmState) : List CmAction → Bool
  | [] => true
  | .enq e :: rest => wellBehaved (cmStep s (.enq e)) rest
  | .resp n op ev :: rest =>
      (decide (op = opcodeNone) || !(s.awaiting.isEmpty)) &&
        wellBehaved (cmStep s (.resp n op ev)) rest

/-- The entries an action adds to the system. -/
def actionEntries : CmAction → List PendingEntry
  | .enq e => [e]
  | .resp _ _ _ => []

/-- The FIFO correlation invariant: every command ever handed to the HAL
is accounted for, oldest first, by the resolved entries followed by the
entries still awaiting a response. -/
def histInv (s : CmState) : Prop :=
  s.sentCommands =
    s.delivered.map (fun p => p.1.cmd) ++ s.awaiting.map (·.cmd)

/-- Recognises upper-layer enqueue actions. -/
def isEnqAction : CmAction → Bool
  | .enq _ => true
  | .resp _ _ _ => false

/-- Octet `i` of a parameter payload (0 when out of range, as the views
report absent fields only through invalidity). -/
def byteAt (l : List Nat) (i : Nat) : Nat := (l.drop i).headD 0

/-- Little-endian 16-bit field starting at octet `i`. -/
def word16At (l : List Nat) (i : Nat) : Nat :=
  byteAt l i + 256 * byteAt l (i + 1)

/-- The num_hci_command_packets field of a Command Complete or Command
Status view (Status carries a leading status octet). -/
def EventPkt.creditField (ev : EventPkt) : Nat :=
  if ev.code = eventCodeCommandStatus then byteAt ev.payload 1
  else byteAt ev.payload 0

/-- The echoed command opcode of a Command Complete or Command Status
view. -/
def EventPkt.opcodeField (ev : EventPkt) : Nat :=
  if ev.code = eventCodeCommandStatus then word16At ev.payload 2
  else word16At ev.payload 1

/-- The sub-event code of an LE Meta event view. -/
def EventPkt.subeventCode (ev : EventPkt) : Nat := byteAt ev.payload 0

/-- The three lifecycle states of the HCI engine (spec 4.4). -/
inductive FsmState where
  | uninitialized
  | resetting
  | ready
deriving DecidableEq, Repr

/-- Modelled from the spec: the HCI engine state (hci_layer.cc is not in
the source tree).  Handler tables map an event code (or LE sub-event
code) to the registered continuation, identified numerically;
`invocations` logs every general/LE handler invocation and `dropped`
logs events that found no handler. -/
structure EngineState where
  fsm : FsmState
  halRegistered : Bool
  cm : CmState
  eventHandlers : List (Nat × Nat)
  leHandlers : List (Nat × Nat)
  invocations : List (Nat × EventPkt)
  dropped : List EventPkt
deriving DecidableEq, Repr

/-- Look a code up in a handler table. -/
def lookupHandler (table : List (Nat × Nat)) (code : Nat) : Option Nat :=
  (table.find? (fun p => p.1 == code)).map (·.2)

/-- Modelled from the spec: `Dispatch(event_view)` (spec 4.2): Command
Complete/Status events go to the Credit Manager (and, while Resetting,
the Reset completion moves the engine to Ready); LE Meta events are
routed by decoded sub-event code through the LE table; all other events
are routed by event code through the general table; an event without a
registered handler is dropped, never fatal. -/
def dispatchEvent (s : EngineState) (ev : EventPkt) : EngineState :=
  if ev.code = eventCodeCommandComplete ∨ ev.code = eventCodeCommandStatus
  then
    let s2 := { s with
      cm := onCommandResponse s.cm ev.creditField ev.opcodeField ev }
    if s.fsm = FsmState.resetting ∧ ev.opcodeField = opcodeReset then
      { s2 with fsm := FsmState.ready }
    else s2
  else if ev.code = eventCodeLeMeta then
    match lookupHandler s.leHandlers ev.subeventCode with
    | some h => { s with invocations := s.invocations ++ [(h, ev)] }
    | none => { s with dropped := s.dropped ++ [ev] }
  else
    match lookupHandler s.eventHandlers ev.code with
    | some h => { s with invocations := s.invocations ++ [(h, ev)] }
    | none => { s with dropped := s.dropped ++ [ev] }

/-- The Reset command builder sends an empty-parameter command with the
Reset opcode. -/
def resetCommand : CommandPkt := ⟨opcodeReset, []⟩

/-- The pending entry created for the startup Reset (continuation id 0:
the engine-internal on-reset-complete continuation). -/
def resetEntry : PendingEntry := ⟨resetCommand, 0⟩

/-- Modelled from the spec: engine start (spec 4.4, Uninitialized to
Resetting): register as the HAL's inbound callback sink, prime
`credit_count = 1`, and enqueue a Reset command. -/
def startEngine : EngineState :=
  { fsm := FsmState.resetting
    halRegistered := true
    cm := enqueueCommand (initCm 1) resetEntry
    eventHandlers := []
    leHandlers := []
    invocations := []
    dropped := [] }

/-- The Command Complete view for the startup Reset:
num_hci_command_packets = 1, opcode Reset (0x03, 0x0C little endian),
status SUCCESS (0x00). -/
def resetCompleteEvent : EventPkt :=
  ⟨eventCodeCommandComplete, [1, 0x03, 0x0C, 0x00]⟩

/-- Modelled from the spec: a Data Queue End for one data kind (ACL or
ISO; spec 3 and 4.3), carrying items of type `α`.  `enqueueReg` /
`dequeueReg` hold the registered supplier / handler ids; `buffer` is the
internal unbounded inbound buffer; `sentData` logs items handed to the
HAL sink of this kind; `deliveredData` logs items handed to the upper
layer by `TryDequeue`. -/
structure QueueEnd (α : Type) where
  enqueueReg : Option Nat
  dequeueReg : Option Nat
  buffer : List α
  sentData : List α
  deliveredData : List α
deriving DecidableEq, Repr

/-- A queue end with no registrations and nothing buffered. -/
def emptyQueueEnd (α : Type) : QueueEnd α :=
  { enqueueReg := none
    dequeueReg := none
    buffer := []
    sentData := []
    deliveredData := [] }

/-- Models `RegisterEnqueue(supplier)`: store the one-shot pull function. -/
def registerEnqueue (q : QueueEnd α) (sid : Nat) : QueueEnd α :=
  { q with enqueueReg := some sid }

/-- Models `UnregisterEnqueue()`. -/
def unregisterEnqueue (q : QueueEnd α) : QueueEnd α :=
  { q with enqueueReg := none }

/-- Models `RegisterDequeue(handler)`. -/
def registerDequeue (q : QueueEnd α) (hid : Nat) : QueueEnd α :=
  { q with dequeueReg := some hid }

/-- Models `UnregisterDequeue()`. -/
def unregisterDequeue (q : QueueEnd α) : QueueEnd α :=
  { q with dequeueReg := none }

/-- Modelled from the spec: the engine-side outbound pump (spec 4.3):
when a supplier is registered and the HAL will accept data of this kind,
pull exactly one item from it, send it via the HAL sink, and clear the
supplier registration. -/
def pumpOutbound (q : QueueEnd α) (supply : Nat → α) : QueueEnd α :=
  match q.enqueueReg with
  | none => q
  | some sid =>
      { q with
        enqueueReg := none
        sentData := q.sentData ++ [supply sid] }

/-- Modelled from the spec: the engine-side inbound pump (spec 4.3): a
decoded arrived item is appended to the internal buffer whether or not a
dequeue handler is registered (unbounded buffering, never dropped); a
registered handler is merely signalled and consumes via `TryDequeue`. -/
def onInboundData (q : QueueEnd α) (x : α) : QueueEnd α :=
  { q with buffer := q.buffer ++ [x] }

/-- Models `TryDequeue()`: pop and deliver one buffered item if present. -/
def tryDequeue (q : QueueEnd α) : QueueEnd α :=
  match q.buffer with
  | [] => q
  | x :: rest =>
      { q with buffer := rest, deliveredData := q.deliveredData ++ [x] }

/-- Upper-layer/transport actions on one queue end. -/
inductive QAction (α : Type) where
  | arrive (x : α)
  | tryDeq
  | regDeq (hid : Nat)
  | unregDeq
deriving DecidableEq, Repr

/-- One step of queue-end activity. -/
def qStep (q : QueueEnd α) : QAction α → QueueEnd α
  | .arrive x => onInboundData q x
  | .tryDeq => tryDequeue q
  | .regDeq hid => registerDequeue q hid
  | .unregDeq => unregisterDequeue q

/-- Run a sequence of queue-end actions. -/
def qRun (q : QueueEnd α) : List (QAction α) → QueueEnd α
  | [] => q
  | a :: rest => qRun (qStep q a) rest

/-- The inbound items arriving in a queue-end action trace, in arrival
order. -/
def qArrivals : List (QAction α) → List α
  | [] => []
  | .arrive x :: rest => x :: qArrivals rest
  | .tryDeq :: rest => qArrivals rest
  | .regDeq _ :: rest => qArrivals rest
  | .unregDeq :: rest => qArrivals rest

/-- Modelled from the spec: the codec boundary's command serializer (the
generated packet code is not in the source tree): 16-bit opcode little
endian, parameter total length, parameters. -/
def encodeCommand (c : CommandPkt) : List Nat :=
  [c.opcode % 256, c.opcode / 256, c.payload.length] ++ c.payload

/-- Structural constraints a command must satisfy to be serializable on
the wire. -/
def wfCommand (c : CommandPkt) : Prop :=
  c.opcode < 65536 ∧ c.payload.length < 256 ∧ ∀ b ∈ c.payload, b < 256

instance (c : CommandPkt) : Decidable (wfCommand c) := by
  unfold wfCommand
  infer_instance

/-- Modelled from the spec: `CommandView::Create` plus `IsValid`: decode
bytes into a command view, or report invalidity (length octet must match
the parameter bytes present, all octets in range). -/
def decodeCommand : List Nat → Option CommandPkt
  | o1 :: o2 :: len :: rest =>
      if o1 < 256 ∧ o2 < 256 ∧ rest.length = len ∧ ∀ b ∈ rest, b < 256 then
        some ⟨o1 + 256 * o2, rest⟩
      else none
  | _ => none

/-- Models `ResetView::IsValid`: a valid Reset command view. -/
def isResetCommand (c : CommandPkt) : Bool :=
  c.opcode == opcodeReset && c.payload.isEmpty

/-- Modelled from the spec: the event serializer: event code, parameter
total length, parameters. -/
def encodeEvent (e : EventPkt) : List Nat :=
  [e.code, e.payload.length] ++ e.payload

/-- Structural constraints on a serializable event. -/
def wfEvent (e : EventPkt) : Prop :=
  e.code < 256 ∧ e.payload.length < 256 ∧ ∀ b ∈ e.payload, b < 256

instance (e : EventPkt) : Decidable (wfEvent e) := by
  unfold wfEvent
  infer_instance

/-- Modelled from the spec: `EventView::Create` plus `IsValid`. -/
def decodeEvent : List Nat → Option EventPkt
  | code :: len :: rest =>
      if code < 256 ∧ rest.length = len ∧ ∀ b ∈ rest, b < 256 then
        some ⟨code, rest⟩
      else none
  | _ => none

/-- An ACL data packet: 12-bit connection handle, 2-bit packet boundary
flag, 2-bit broadcast flag, payload. -/
structure AclPkt where
  handle : Nat
  pb : Nat
  bc : Nat
  payload : List Nat
deriving DecidableEq, Repr

/-- Modelled from the spec: the ACL serializer: handle and flags packed
into two octets (handle low byte; then handle high nibble, boundary
flag, broadcast flag), 16-bit little-endian data length, payload. -/
def encodeAcl (a : AclPkt) : List Nat :=
  [a.handle % 256, a.handle / 256 + 16 * a.pb + 64 * a.bc,
   a.payload.length % 256, a.payload.length / 256] ++ a.payload

/-- Structural constraints on a serializable ACL packet. -/
def wfAcl (a : AclPkt) : Prop :=
  a.handle < 4096 ∧ a.pb < 4 ∧ a.bc < 4 ∧ a.payload.length < 65536 ∧
    ∀ b ∈ a.payload, b < 256

instance (a : AclPkt) : Decidable (wfAcl a) := by
  unfold wfAcl
  infer_instance

/-- Modelled from the spec: `AclView::Create` plus `IsValid`. -/
def decodeAcl : List Nat → Option AclPkt
  | b0 :: b1 :: l0 :: l1 :: rest =>
      if b0 < 256 ∧ b1 < 256 ∧ l0 < 256 ∧ l1 < 256 ∧
          rest.length = l0 + 256 * l1 ∧ ∀ b ∈ rest, b < 256 then
        some ⟨b0 + 256 * (b1 % 16), b1 / 16 % 4, b1 / 64, rest⟩
      else none
  | _ => none

/-- An ISO data packet: 12-bit connection handle, 2-bit packet boundary
flag, 1-bit timestamp flag, payload. -/
structure IsoPkt where
  handle : Nat
  pb : Nat
  ts : Nat
  payload : List Nat
deriving DecidableEq, Repr

/-- Modelled from the spec: the ISO serializer: handle low byte; handle
high nibble, boundary flag, timestamp flag; 14-bit little-endian data
load length; payload. -/
def encodeIso (i : IsoPkt) : List Nat :=
  [i.handle % 256, i.handle / 256 + 16 * i.pb + 64 * i.ts,
   i.payload.length % 256, i.payload.length / 256] ++ i.payload

/-- Structural constraints on a serializable ISO packet. -/
def wfIso (i : IsoPkt) : Prop :=
  i.handle < 4096 ∧ i.pb < 4 ∧ i.ts < 2 ∧ i.payload.length < 16384 ∧
    ∀ b ∈ i.payload, b < 256

instance (i : IsoPkt) : Decidable (wfIso i) := by
  unfold wfIso
  infer_instance

/-- Modelled from the spec: `IsoView::Create` plus `IsValid` (the
reserved top bit of the second octet must be clear, the length field is
14 bits). -/
def decodeIso : List Nat → Option IsoPkt
  | b0 :: b1 :: l0 :: l1 :: rest =>
      if b0 < 256 ∧ b1 < 128 ∧ l0 < 256 ∧ l1 < 64 ∧
          rest.length = l0 + 256 * l1 ∧ ∀ b ∈ rest, b < 256 then
        some ⟨b0 + 256 * (b1 % 16), b1 / 16 % 4, b1 / 64, rest⟩
      else none
  | _ => none

/-- A Command Complete view's fields: credit report, echoed opcode,
return parameters (status first). -/
structure CommandCompletePkt where
  numPackets : Nat
  opcode : Nat
  ret : List Nat
deriving DecidableEq, Repr

/-- The event carrying a Command Complete. -/
def eventOfCommandComplete (p : CommandCompletePkt) : EventPkt :=
  ⟨eventCodeCommandComplete,
    [p.numPackets, p.opcode % 256, p.opcode / 256] ++ p.ret⟩

/-- Structural constraints on a serializable Command Complete. -/
def wfCommandComplete (p : CommandCompletePkt) : Prop :=
  p.numPackets < 256 ∧ p.opcode < 65536 ∧ p.ret.length + 3 < 256 ∧
    ∀ b ∈ p.ret, b < 256

instance (p : CommandCompletePkt) : Decidable (wfCommandComplete p) := by
  unfold wfCommandComplete
  infer_instance

/-- Modelled from the spec: `CommandCompleteView::Create` plus
`IsValid`. -/
def decodeCommandComplete : EventPkt → Option CommandCompletePkt
  | ⟨code, n :: o1 :: o2 :: ret⟩ =>
      if code = eventCodeCommandComplete ∧ n < 256 ∧ o1 < 256 ∧ o2 < 256
      then some ⟨n, o1 + 256 * o2, ret⟩
      else none
  | _ => none

/-- A Command Status view's fields. -/
structure CommandStatusPkt where
  status : Nat
  numPackets : Nat
  opcode : Nat
deriving DecidableEq, Repr

/-- The event carrying a Command Status. -/
def eventOfCommandStatus (p : CommandStatusPkt) : EventPkt :=
  ⟨eventCodeCommandStatus,
    [p.status, p.numPackets, p.opcode % 256, p.opcode / 256]⟩

/-- Structural constraints on a serializable Command Status. -/
def wfCommandStatus (p : CommandStatusPkt) : Prop :=
  p.status < 256 ∧ p.numPackets < 256 ∧ p.opcode < 65536

instance (p : CommandStatusPkt) : Decidable (wfCommandStatus p) := by
  unfold wfCommandStatus
  infer_instance

/-- Modelled from the spec: `CommandStatusView::Create` plus
`IsValid`. -/
def decodeCommandStatus : EventPkt → Option CommandStatusPkt
  | ⟨code, [st, n, o1, o2]⟩ =>
      if code = eventCodeCommandStatus ∧ st < 256 ∧ n < 256 ∧ o1 < 256 ∧
          o2 < 256
      then some ⟨st, n, o1 + 256 * o2⟩
      else none
  | _ => none

/-- The sub-event code of LE Connection Complete. -/
def subeventLeConnectionComplete : Nat := 0x01

/-- Models `LeMetaEventView::IsValid`: an LE Meta event with a decodable
sub-event code. -/
def isLeMetaEvent (ev : EventPkt) : Bool :=
  ev.code == eventCodeLeMeta && !ev.payload.isEmpty

/-- An LE Connection Complete view's fields. -/
structure LeConnCompletePkt where
  status : Nat
  handle : Nat
  role : Nat
  peerAddressType : Nat
  peerAddress : List Nat
  connInterval : Nat
  connLatency : Nat
  supervisionTimeout : Nat
  centralClockAccuracy : Nat
deriving DecidableEq, Repr

/-- The LE Meta event carrying an LE Connection Complete. -/
def eventOfLeConnComplete (p : LeConnCompletePkt) : EventPkt :=
  ⟨eventCodeLeMeta,
    [subeventLeConnectionComplete, p.status, p.handle % 256,
     p.handle / 256, p.role, p.peerAddressType] ++ p.peerAddress ++
    [p.connInterval % 256, p.connInterval / 256, p.connLatency % 256,
     p.connLatency / 256, p.supervisionTimeout % 256,
     p.supervisionTimeout / 256, p.centralClockAccuracy]⟩

/-- Structural constraints on a serializable LE Connection Complete. -/
def wfLeConnComplete (p : LeConnCompletePkt) : Prop :=
  p.status < 256 ∧ p.handle < 4096 ∧ p.role < 256 ∧
    p.peerAddressType < 256 ∧ p.peerAddress.length = 6 ∧
    (∀ b ∈ p.peerAddress, b < 256) ∧ p.connInterval < 65536 ∧
    p.connLatency < 65536 ∧ p.supervisionTimeout < 65536 ∧
    p.centralClockAccuracy < 256

instance (p : LeConnCompletePkt) : Decidable (wfLeConnComplete p) := by
  unfold wfLeConnComplete
  infer_instance

/-- Modelled from the spec: `LeConnectionCompleteView::Create` plus
`IsValid` (through `LeMetaEventView`). -/
def decodeLeConnComplete : EventPkt → Option LeConnCompletePkt
  | ⟨code, [sub, st, h0, h1, role, pat, a0, a1, a2, a3, a4, a5,
            i0, i1, l0, l1, t0, t1, acc]⟩ =>
      if code = eventCodeLeMeta ∧ sub = subeventLeConnectionComplete ∧
          st < 256 ∧ h0 < 256 ∧ h1 < 16 ∧ role < 256 ∧ pat < 256 ∧
          a0 < 256 ∧ a1 < 256 ∧ a2 < 256 ∧ a3 < 256 ∧ a4 < 256 ∧
          a5 < 256 ∧ i0 < 256 ∧ i1 < 256 ∧ l0 < 256 ∧ l1 < 256 ∧
          t0 < 256 ∧ t1 < 256 ∧ acc < 256
      then some ⟨st, h0 + 256 * h1, role, pat, [a0, a1, a2, a3, a4, a5],
        i0 + 256 * i1, l0 + 256 * l1, t0 + 256 * t1, acc⟩
      else none
  | _ => none

/-- Models `HciLayer::kHciTimeoutMs`, the response-timeout bound in
milliseconds. -/
def kHciTimeoutMs : Nat := 2000

/-- The CONTROLLER_DEBUG_INFO diagnostic command issued by the liveness
escalation. -/
def controllerDebugInfoCommand : CommandPkt :=
  ⟨opcodeControllerDebugInfo, []⟩

/-- Modelled from the spec: the liveness escalation of the Command/Credit
Manager (spec 4.1, failure mode): when the response timeout
(`kHciTimeoutMs`) expires with a sent command still awaiting its
response, issue the CONTROLLER_DEBUG_INFO diagnostic command to the
controller; no continuation is invoked and no pending entry is touched
(real time is abstracted to the timeout-expiry step itself). -/
def onResponseTimeout (s : CmState) : CmState :=
  match s.awaiting with
  | [] => s
  | _ :: _ =>
      { s with sentCommands := s.sentCommands ++ [controllerDebugInfoCommand] }

/-- Pending entry used by witness instantiations: a
ReadLocalVersionInformation command (opcode 0x1001). -/
def wEntry1 : PendingEntry := ⟨⟨0x1001, []⟩, 1⟩

/-- Pending entry used by witness instantiations: a
ReadLocalSupportedCommands command (opcode 0x1002). -/
def wEntry2 : PendingEntry := ⟨⟨0x1002, []⟩, 2⟩

/-- A no-op Command Complete view carrying one credit. -/
def wEvNoop : EventPkt := ⟨0x0E, [1, 0, 0]⟩

/-- A ReadLocalVersionInformationComplete view. -/
def wEvV1 : EventPkt := ⟨0x0E, [1, 0x01, 0x10, 0]⟩

/-- A ReadLocalSupportedCommandsComplete view. -/
def wEvV2 : EventPkt := ⟨0x0E, [1, 0x02, 0x10, 0]⟩

/-- A Command/Credit Manager state with zero credits and one queued
command, as in the noOpCredits test after the 0-credit report. -/
def wStalled : CmState :=
  { creditCount := 0
    commandQueue := [wEntry1]
    awaiting := []
    sentCommands := []
    delivered := [] }

/-- The trace driven by the creditsTest scenario: two commands enqueued
back to back, then each answered in turn with one credit. -/
def wTrace : List CmAction :=
  [CmAction.enq wEntry1, CmAction.enq wEntry2,
   CmAction.resp 1 0x1001 wEvV1, CmAction.resp 1 0x1002 wEvV2]

/-- An engine state with one general handler (id 7 on Connection
Complete) and one LE handler (id 9 on LE Connection Complete). -/
def wEngine : EngineState :=
  { fsm := FsmState.ready
    halRegistered := true
    cm := initCm 1
    eventHandlers := [(eventCodeConnectionComplete, 7)]
    leHandlers := [(subeventLeConnectionComplete, 9)]
    invocations := []
    dropped := [] }

/-- An LE Meta event with sub-event code LE Connection Complete. -/
def wEvLe : EventPkt := ⟨eventCodeLeMeta, [1, 0, 0x23, 0x01]⟩

/-- A Connection Complete event. -/
def wEvConn : EventPkt := ⟨eventCodeConnectionComplete, [0, 0x23, 0x01]⟩

/-- The i-th inbound ACL packet of the receiveMultipleAclPackets
scenario: handle 0x0001, payload = address, handle, sequence number (16
bits little endian). -/
def aclArrival (i : Nat) : AclPkt :=
  ⟨1, 2, 0, [0xA1, 0xA2, 0xA3, 0xA4, 0xA5, 0xA6, 1, 0, i % 256, i / 256]⟩

/-- The sequence number carried by an inbound ACL packet of the
scenario. -/
def aclSeq (a : AclPkt) : Nat := word16At a.payload 8

/-- The i-th inbound ISO packet of the receiveMultipleIsoPackets
scenario: handle 0x0001, payload = handle, sequence number. -/
def isoArrival (i : Nat) : IsoPkt :=
  ⟨1, 0, 0, [1, 0, i % 256, i / 256]⟩

/-- The sequence number carried by an inbound ISO packet of the
scenario. -/
def isoSeq (i : IsoPkt) : Nat := word16At i.payload 2

/-- One hundred arrivals (with no dequeue handler registered) then 100
`TryDequeue` pops. -/
def aclScenario : List (QAction AclPkt) :=
  (((List.range 100).map aclArrival).map QAction.arrive) ++
    List.replicate 100 QAction.tryDeq

/-- ISO version of the 100 packet scenario. -/
def isoScenario : List (QAction IsoPkt) :=
  (((List.range 100).map isoArrival).map QAction.arrive) ++
    List.replicate 100 QAction.tryDeq

/-- The CreateConnection command of the createConnectionTest, with
bd_addr A1:A2:A3:A4:A5:A6, packet type 0x1234, page scan repetition mode
R0, clock offset 0x3456 valid, role switch allowed. -/
def wCreateConnection : CommandPkt :=
  ⟨0x0405, [0xA6, 0xA5, 0xA4, 0xA3, 0xA2, 0xA1, 0x34, 0x12, 0x00, 0x56,
    0xB4, 0x01]⟩

/-- The LE Connection Complete of the leMetaEvent test: status SUCCESS,
handle 0x123, role CENTRAL, public peer address 00:00:00:00:00:00,
interval 0x0ABC, latency 0x0123, supervision timeout 0x0B05, central
clock accuracy PPM_50. -/
def wLeConnComplete : LeConnCompletePkt :=
  ⟨0, 0x123, 0, 0, [0, 0, 0, 0, 0, 0], 0x0ABC, 0x0123, 0x0B05, 7⟩

/-- An inbound ACL packet of the createConnectionTest. -/
def wAcl : AclPkt :=
  ⟨0x123, 2, 0, [0xA1, 0xA2, 0xA3, 0xA4, 0xA5, 0xA6, 0x23, 0x01]⟩

/-- An inbound ISO packet of the receiveMultipleIsoPackets test. -/
def wIso : IsoPkt := ⟨1, 0, 0, [1, 0, 5, 0]⟩

/-- The ReadLocalVersionInformationComplete of the creditsTest: one
credit, status SUCCESS, hci version 5.0 (9), revision 0x1234, lmp version
4.2 (8), manufacturer 0x0BAD, lmp subversion 0x5678. -/
def wCommandComplete : CommandCompletePkt :=
  ⟨1, 0x1001, [0, 9, 0x34, 0x12, 8, 0xAD, 0x0B, 0x78, 0x56]⟩

/-- The CreateConnectionStatus of the createConnectionTest. -/
def wCommandStatus : CommandStatusPkt := ⟨0, 1, 0x0405⟩

/-- A manager state with one command sent and awaiting its response, as
in the hciTimeOut test after the Reset is sent. -/
def wAwaitState : CmState :=
  { creditCount := 0
    commandQueue := []
    awaiting := [resetEntry]
    sentCommands := [resetCommand]
    delivered := [] }

end Hci

namespace PacketStream

/-- Modelled from the spec: serial_data_type_t of hci_internals.h (not in
the source tree): the framing octet identifying a command packet. -/
def DATA_TYPE_COMMAND : Nat := 1

/-- The framing octet identifying an ACL data packet. -/
def DATA_TYPE_ACL : Nat := 2

/-- The framing octet identifying an SCO data packet. -/
def DATA_TYPE_SCO : Nat := 3

/-- The framing octet identifying an event packet. -/
def DATA_TYPE_EVENT : Nat := 4

/-- Modelled from the spec: `PacketStream::ValidateTypeOctet` (only the
header packet_stream.h is in the source tree): checks that the octet is
in the valid range from DATA_TYPE_COMMAND to DATA_TYPE_SCO. -/
def validateTypeOctet (t : Nat) : Bool :=
  decide (DATA_TYPE_COMMAND ≤ t) && decide (t ≤ DATA_TYPE_SCO)

/-- Modelled from the spec: `PacketStream::ReceiveAll`: attempt to
receive exactly `n` octets from the file-descriptor stream (modelled as
the list of octets it will yield), returning the octets received and the
remaining stream, or failure (`none`, the header's `false`) when fewer
than `n` octets can be read. -/
def receiveAll (stream : List Nat) (n : Nat) :
    Option (List Nat × List Nat) :=
  if n ≤ stream.length then some (stream.take n, stream.drop n) else none

/-- Modelled from the spec: `PacketStream::SendAll`: attempt to send
exactly `n` octets from `source`, failing (`none`) rather than sending
fewer. -/
def sendAll (source : List Nat) (n : Nat) : Option (List Nat) :=
  if n ≤ source.length then some (source.take n) else none

/-- Modelled from the spec: `PacketStream::ReceivePacketType`: read a
single octet, validate it as a packet type octet, and reject out-of-range
octets instead of returning them. -/
def receivePacketType (stream : List Nat) : Option (Nat × List Nat) :=
  match receiveAll stream 1 with
  | none => none
  | some (octets, rest) =>
      let t := octets.headD 0
      if validateTypeOctet t then some (t, rest) else none

end PacketStream

namespace Hci

theorem drainGo_eq (s : CmState) (c : Nat) (q : List PendingEntry) :
    drainGo s c q = { s with
      creditCount := c - q.length
      commandQueue := q.drop c
      sentCommands := s.sentCommands ++ (q.take c).map (·.cmd)
      awaiting := s.awaiting ++ q.take c } := by
  induction q generalizing s c with
  | nil => cases c <;> simp [drainGo]
  | cons e rest ih =>
      cases c with
      | zero => simp [drainGo]
      | succ c =>
          rw [drainGo, ih]
          simp [List.append_assoc, Nat.succ_sub_succ]

/-- Full characterisation of `drain`: it sends the longest prefix of the
FIFO allowed by the credit, appends those entries to the awaiting list,
and spends one credit per send. -/
theorem drain_eq (s : CmState) :
    drain s = { s with
      commandQueue := s.commandQueue.drop s.creditCount
      creditCount := s.creditCount - s.commandQueue.length
      sentCommands :=
        s.sentCommands ++ (s.commandQueue.take s.creditCount).map (·.cmd)
      awaiting := s.awaiting ++ s.commandQueue.take s.creditCount } := by
  unfold drain
  rw [drainGo_eq]

theorem drain_zero (s : CmState) (h : s.creditCount = 0) : drain s = s := by
  rw [drain_eq, h]
  simp only [List.take_zero, List.drop_zero, List.map_nil, List.append_nil]
  cases s
  simp_all

theorem drain_delivered (s : CmState) :
    (drain s).delivered = s.delivered := by
  rw [drain_eq]

theorem enqueueCommand_sent (s : CmState) (e : PendingEntry) :
    (enqueueCommand s e).sentCommands =
      s.sentCommands ++
        (((s.commandQueue ++ [e]).take s.creditCount).map (·.cmd)) := by
  unfold enqueueCommand
  rw [drain_eq]

theorem enqueueCommand_queue (s : CmState) (e : PendingEntry) :
    (enqueueCommand s e).commandQueue =
      (s.commandQueue ++ [e]).drop s.creditCount := by
  unfold enqueueCommand
  rw [drain_eq]

theorem enqueueCommand_credit (s : CmState) (e : PendingEntry) :
    (enqueueCommand s e).creditCount =
      s.creditCount - (s.commandQueue.length + 1) := by
  unfold enqueueCommand
  rw [drain_eq]
  simp

theorem enqueueCommand_delivered (s : CmState) (e : PendingEntry) :
    (enqueueCommand s e).delivered = s.delivered := by
  unfold enqueueCommand
  rw [drain_eq]

/-- In every branch of `onCommandResponse`, the drained state has the old
send log, the old FIFO, and credit `n`; so the commands newly handed to
the HAL are exactly the longest prefix of the FIFO covered by the fresh
credit `n`. -/
theorem onCommandResponse_sent (s : CmState) (n op : Nat) (ev : EventPkt) :
    (onCommandResponse s n op ev).sentCommands =
      s.sentCommands ++ ((s.commandQueue.take n).map (·.cmd)) := by
  unfold onCommandResponse
  by_cases hop : op = opcodeNone
  · simp [hop, drain_eq]
  · simp only [if_neg hop]
    rcases haw : s.awaiting with _ | ⟨e, rest⟩ <;> simp [haw, drain_eq]

theorem onCommandResponse_queue (s : CmState) (n op : Nat) (ev : EventPkt) :
    (onCommandResponse s n op ev).commandQueue = s.commandQueue.drop n := by
  unfold onCommandResponse
  by_cases hop : op = opcodeNone
  · simp [hop, drain_eq]
  · simp only [if_neg hop]
    rcases haw : s.awaiting with _ | ⟨e, rest⟩ <;> simp [haw, drain_eq]

theorem onCommandResponse_credit (s : CmState) (n op : Nat) (ev : EventPkt) :
    (onCommandResponse s n op ev).creditCount = n - s.commandQueue.length := by
  unfold onCommandResponse
  by_cases hop : op = opcodeNone
  · simp [hop, drain_eq]
  · simp only [if_neg hop]
    rcases haw : s.awaiting with _ | ⟨e, rest⟩ <;> simp [haw, drain_eq]

theorem onCommandResponse_delivered_noop (s : CmState) (n : Nat)
    (ev : EventPkt) :
    (onCommandResponse s n opcodeNone ev).delivered = s.delivered := by
  unfold onCommandResponse
  simp [drain_eq]

theorem onCommandResponse_resolve (s : CmState) (n op : Nat) (ev : EventPkt)
    (e : PendingEntry) (rest : List PendingEntry) (hop : op ≠ opcodeNone)
    (haw : s.awaiting = e :: rest) :
    (onCommandResponse s n op ev).delivered = s.delivered ++ [(e, ev)] ∧
    (onCommandResponse s n op ev).awaiting =
      rest ++ s.commandQueue.take n := by
  unfold onCommandResponse
  simp only [if_neg hop, haw]
  rw [drain_eq]
  exact ⟨rfl, rfl⟩

theorem onCommandResponse_delivered_empty (s : CmState) (n op : Nat)
    (ev : EventPkt) (haw : s.awaiting = []) :
    (onCommandResponse s n op ev).delivered = s.delivered := by
  unfold onCommandResponse
  by_cases hop : op = opcodeNone
  · simp [hop, drain_eq]
  · simp only [if_neg hop, haw]
    rw [drain_eq]

theorem enqueueCommand_awaiting (s : CmState) (e : PendingEntry) :
    (enqueueCommand s e).awaiting =
      s.awaiting ++ (s.commandQueue ++ [e]).take s.creditCount := by
  unfold enqueueCommand
  rw [drain_eq]

/-- Conservation of entries: a step never loses or reorders entries; the
resolved, awaiting, and still-queued entries, read oldest first, are the
previous ones plus whatever the action submitted. -/
theorem cmStep_entries (s : CmState) (a : CmAction) :
    (cmStep s a).delivered.map Prod.fst ++ (cmStep s a).awaiting ++
        (cmStep s a).commandQueue =
      s.delivered.map Prod.fst ++ s.awaiting ++ s.commandQueue ++
        actionEntries a := by
  rcases a with e | ⟨n, op, ev⟩
  · simp only [cmStep, actionEntries, enqueueCommand_delivered,
      enqueueCommand_awaiting, enqueueCommand_queue]
    simp [List.append_assoc, List.take_append_drop]
  · simp only [cmStep, actionEntries, onCommandResponse_queue]
    by_cases hop : op = opcodeNone
    · subst hop
      rw [onCommandResponse_delivered_noop]
      have haw : (onCommandResponse s n opcodeNone ev).awaiting =
          s.awaiting ++ s.commandQueue.take n := by
        unfold onCommandResponse
        simp [drain_eq]
      rw [haw]
      simp [List.append_assoc, List.take_append_drop]
    · rcases haw : s.awaiting with _ | ⟨e, rest⟩
      · rw [onCommandResponse_delivered_empty s n op ev haw]
        have haw2 : (onCommandResponse s n op ev).awaiting =
            s.commandQueue.take n := by
          unfold onCommandResponse
          simp only [if_neg hop, haw]
          rw [drain_eq]
          simp
        rw [haw2]
        simp [List.append_assoc, List.take_append_drop]
      · obtain ⟨hdel, haw2⟩ := onCommandResponse_resolve s n op ev e rest hop haw
        rw [hdel, haw2]
        simp [List.append_assoc, List.take_append_drop]

theorem drain_histInv (s : CmState) (h : histInv s) : histInv (drain s) := by
  unfold histInv at h ⊢
  rw [drain_eq]
  simp [h, List.append_assoc]

theorem cmStep_histInv (s : CmState) (a : CmAction) (h : histInv s) :
    histInv (cmStep s a) := by
  rcases a with e | ⟨n, op, ev⟩
  · exact drain_histInv _ h
  · unfold cmStep onCommandResponse
    by_cases hop : op = opcodeNone
    · simp only [hop, if_pos rfl]
      exact drain_histInv _ h
    · simp only [if_neg hop]
      rcases haw : s.awaiting with _ | ⟨e, rest⟩
      · apply drain_histInv
        unfold histInv at h ⊢
        simpa [haw] using h
      · apply drain_histInv
        unfold histInv at h ⊢
        simp only at h ⊢
        rw [h, haw]
        simp

/-- The decoded views handed to continuations during a step, under a well
behaved controller: one per resolving response event, in order. -/
theorem cmStep_resp_events (s : CmState) (n op : Nat) (ev : EventPkt)
    (h : op ≠ opcodeNone → s.awaiting ≠ []) :
    (cmStep s (.resp n op ev)).delivered.map Prod.snd =
      s.delivered.map Prod.snd ++
        (if op = opcodeNone then [] else [ev]) := by
  unfold cmStep
  by_cases hop : op = opcodeNone
  · subst hop
    rw [onCommandResponse_delivered_noop]
    simp
  · rcases haw : s.awaiting with _ | ⟨e, rest⟩
    · exact absurd haw (h hop)
    · obtain ⟨hdel, -⟩ := onCommandResponse_resolve s n op ev e rest hop haw
      rw [hdel]
      simp [hop]

theorem cmRun_entries (s : CmState) (t : List CmAction) :
    (cmRun s t).delivered.map Prod.fst ++ (cmRun s t).awaiting ++
        (cmRun s t).commandQueue =
      s.delivered.map Prod.fst ++ s.awaiting ++ s.commandQueue ++
        submitted t := by
  induction t generalizing s with
  | nil => simp [cmRun, submitted]
  | cons a rest ih =>
      simp only [cmRun]
      rw [ih, cmStep_entries]
      cases a <;> simp [submitted, actionEntries, List.append_assoc]

theorem cmRun_histInv (s : CmState) (t : List CmAction) (h : histInv s) :
    histInv (cmRun s t) := by
  induction t generalizing s with
  | nil => exact h
  | cons a rest ih => exact ih _ (cmStep_histInv s a h)

theorem cmRun_resp_events (s : CmState) (t : List CmAction)
    (h : wellBehaved s t = true) :
    (cmRun s t).delivered.map Prod.snd =
      s.delivered.map Prod.snd ++ respEvents t := by
  induction t generalizing s with
  | nil => simp [cmRun, respEvents]
  | cons a rest ih =>
      rcases a with e | ⟨n, op, ev⟩
      · simp only [cmRun, wellBehaved] at h ⊢
        rw [ih _ h]
        simp [respEvents, cmStep, enqueueCommand_delivered]
      · simp only [cmRun, wellBehaved, Bool.and_eq_true] at h ⊢
        obtain ⟨h1, h2⟩ := h
        have hc : op ≠ opcodeNone → s.awaiting ≠ [] := by
          intro hop hnil
          simp [hop, hnil] at h1
        rw [ih _ h2, cmStep_resp_events s n op ev hc]
        by_cases hop : op = opcodeNone <;>
          simp [hop, respEvents, List.append_assoc]

theorem cmRun_enq_only_zero (s : CmState) (t : List CmAction)
    (h0 : s.creditCount = 0) (ht : t.all isEnqAction = true) :
    (cmRun s t).sentCommands = s.sentCommands ∧
      (cmRun s t).creditCount = 0 := by
  induction t generalizing s with
  | nil => exact ⟨rfl, h0⟩
  | cons a rest ih =>
      simp only [List.all_cons, Bool.and_eq_true] at ht
      rcases a with e | ⟨n, op, ev⟩
      · have h1 : (cmStep s (.enq e)).creditCount = 0 := by
          simp [cmStep, enqueueCommand_credit, h0]
        have h2 : (cmStep s (.enq e)).sentCommands = s.sentCommands := by
          simp [cmStep, enqueueCommand_sent, h0]
        obtain ⟨hs, hc⟩ := ih _ h1 ht.2
        exact ⟨by rw [cmRun, hs, h2], hc⟩
      · simp [isEnqAction] at ht

/-- C1: while the credit count is 0, no command is sent: enqueuing (once
or repeatedly) leaves the HAL send log untouched and only grows the FIFO,
`Drain` is a no-op, and when a credit-bearing event reporting
`num_hci_command_packets = n ≥ 1` arrives, the head of the FIFO is the
very next command handed to the HAL (for `n = 1`, it is the only one). -/
theorem zeroCreditStall (s : CmState) (e : PendingEntry) (t : List CmAction)
    (n op : Nat) (ev : EventPkt) (h0 : s.creditCount = 0) :
    (enqueueCommand s e).sentCommands = s.sentCommands
    ∧ (enqueueCommand s e).commandQueue = s.commandQueue ++ [e]
    ∧ (∀ u : CmState, u.creditCount = 0 → drain u = u)
    ∧ (t.all isEnqAction = true →
        (cmRun s t).sentCommands = s.sentCommands)
    ∧ (∀ d rest, s.commandQueue = d :: rest → 1 ≤ n →
        ((onCommandResponse s n op ev).sentCommands).take
          (s.sentCommands.length + 1) = s.sentCommands ++ [d.cmd])
    ∧ (∀ d rest, s.commandQueue = d :: rest →
        (onCommandResponse s 1 op ev).sentCommands =
          s.sentCommands ++ [d.cmd]) := by
  refine ⟨?_, ?_, ?_, ?_, ?_, ?_⟩
  · rw [enqueueCommand_sent]
    simp [h0]
  · rw [enqueueCommand_queue]
    simp [h0]
  · exact fun u hu => drain_zero u hu
  · exact fun ht => (cmRun_enq_only_zero s t h0 ht).1
  · intro d rest hq hn
    rw [onCommandResponse_sent, hq]
    obtain ⟨m, rfl⟩ := Nat.exists_eq_add_of_le hn
    simp [List.take_append_eq_append_take, List.take_of_length_le,
      Nat.add_sub_cancel_left]
    rw [List.take_take, Nat.min_eq_left (by omega)]
    rfl
  · intro d rest hq
    rw [onCommandResponse_sent, hq]
    simp

theorem zeroCreditStall_witness :
    (enqueueCommand wStalled wEntry2).sentCommands = wStalled.sentCommands
    ∧ (cmRun wStalled [CmAction.enq wEntry2]).sentCommands =
        wStalled.sentCommands
    ∧ (onCommandResponse wStalled 1 0 wEvNoop).sentCommands =
        wStalled.sentCommands ++ [wEntry1.cmd] := by
  obtain ⟨h1, h2, h3, h4, h5, h6⟩ :=
    zeroCreditStall wStalled wEntry2 [CmAction.enq wEntry2] 1 0 wEvNoop rfl
  exact ⟨h1, h4 (by decide), h6 wEntry1 [] rfl⟩

/-- C2: starting from a freshly primed manager, for every action trace
under a well-behaved controller: the commands handed to the HAL followed
by the still-queued ones are exactly the submitted commands in submission
order (so sends respect submission order, limited only by credit); the
resolved entries, awaiting entries and queued entries, oldest first, are
the submitted entries; and the i-th continuation invoked received the
i-th resolving response event -- response matching is FIFO, not
content-addressed. -/
theorem fifoCorrelation (c : Nat) (t : List CmAction)
    (h : wellBehaved (initCm c) t = true) :
    (cmRun (initCm c) t).sentCommands ++
        ((cmRun (initCm c) t).commandQueue.map (·.cmd)) =
      (submitted t).map (·.cmd)
    ∧ (cmRun (initCm c) t).delivered.map Prod.fst ++
        (cmRun (initCm c) t).awaiting ++
        (cmRun (initCm c) t).commandQueue = submitted t
    ∧ (cmRun (initCm c) t).delivered.map Prod.snd = respEvents t := by
  have hent := cmRun_entries (initCm c) t
  simp only [initCm, List.map_nil, List.nil_append] at hent
  have hh : histInv (cmRun (initCm c) t) :=
    cmRun_histInv _ _ (by simp [histInv, initCm])
  have hresp := cmRun_resp_events _ _ h
  simp only [initCm, List.map_nil, List.nil_append] at hresp
  refine ⟨?_, hent, hresp⟩
  unfold histInv at hh
  rw [hh, ← hent]
  simp [initCm, List.map_append, List.map_map, Function.comp_def]

theorem fifoCorrelation_witness :
    (cmRun (initCm 1) wTrace).sentCommands ++
        ((cmRun (initCm 1) wTrace).commandQueue.map (·.cmd)) =
      (submitted wTrace).map (·.cmd)
    ∧ (cmRun (initCm 1) wTrace).delivered.map Prod.fst ++
        (cmRun (initCm 1) wTrace).awaiting ++
        (cmRun (initCm 1) wTrace).commandQueue = submitted wTrace
    ∧ (cmRun (initCm 1) wTrace).delivered.map Prod.snd =
        respEvents wTrace :=
  fifoCorrelation 1 wTrace (by decide)

/-- C3: a Command Complete/Status event reporting
`num_hci_command_packets = n` overwrites the credit count (the previous
credit value is irrelevant: the controller reports an allowance, not a
delta), and the credit is then spent one per command subsequently sent by
the drain, so at most `n` further commands go out before the next report
and the remaining credit plus the number of new sends equals `n`. -/
theorem creditSetNotIncremented (s : CmState) (n op : Nat) (ev : EventPkt) :
    (∀ c, onCommandResponse { s with creditCount := c } n op ev =
        onCommandResponse s n op ev)
    ∧ (onCommandResponse s n op ev).creditCount +
        ((onCommandResponse s n op ev).sentCommands.length -
          s.sentCommands.length) = n
    ∧ (onCommandResponse s n op ev).sentCommands.length -
        s.sentCommands.length ≤ n := by
  refine ⟨fun c => rfl, ?_, ?_⟩
  · rw [onCommandResponse_credit, onCommandResponse_sent]
    simp only [List.length_append, List.length_map, List.length_take]
    omega
  · rw [onCommandResponse_sent]
    simp only [List.length_append, List.length_map, List.length_take]
    omega

/-- C4: starting the engine registers it as the HAL's inbound sink,
primes one credit, and sends exactly one command, whose bytes decode to a
valid Reset view; dispatching the Reset's Command Complete (one credit,
status SUCCESS) moves the engine to Ready with credit count 1 and no
additional command sent, resolving the startup continuation. -/
theorem startupHandshake :
    startEngine.halRegistered = true
    ∧ startEngine.fsm = FsmState.resetting
    ∧ (initCm 1).creditCount = 1
    ∧ startEngine.cm.sentCommands = [resetCommand]
    ∧ isResetCommand resetCommand = true
    ∧ decodeCommand (encodeCommand resetCommand) = some resetCommand
    ∧ (dispatchEvent startEngine resetCompleteEvent).fsm = FsmState.ready
    ∧ (dispatchEvent startEngine resetCompleteEvent).cm.creditCount = 1
    ∧ (dispatchEvent startEngine resetCompleteEvent).cm.sentCommands =
        [resetCommand]
    ∧ (dispatchEvent startEngine resetCompleteEvent).cm.delivered =
        [(resetEntry, resetCompleteEvent)] := by
  decide

/-- C5: dispatch invokes at most one handler per event; Command
Complete/Status events are consumed by the Credit Manager and never reach
general or LE handlers; an LE Meta event is routed by its decoded
sub-event code through the LE table; any other event is routed by its
event code through the general table; a missing handler drops the
event. -/
theorem dispatchExclusivity (s : EngineState) (ev : EventPkt) :
    ((dispatchEvent s ev).invocations.length ≤ s.invocations.length + 1)
    ∧ (ev.code = eventCodeCommandComplete ∨
        ev.code = eventCodeCommandStatus →
        (dispatchEvent s ev).invocations = s.invocations
        ∧ (dispatchEvent s ev).dropped = s.dropped
        ∧ (dispatchEvent s ev).cm =
            onCommandResponse s.cm ev.creditField ev.opcodeField ev)
    ∧ (ev.code = eventCodeLeMeta →
        (dispatchEvent s ev).cm = s.cm
        ∧ (dispatchEvent s ev).invocations =
            (match lookupHandler s.leHandlers ev.subeventCode with
             | some h => s.invocations ++ [(h, ev)]
             | none => s.invocations)
        ∧ (dispatchEvent s ev).dropped =
            (match lookupHandler s.leHandlers ev.subeventCode with
             | some _ => s.dropped
             | none => s.dropped ++ [ev]))
    ∧ (ev.code ≠ eventCodeCommandComplete →
        ev.code ≠ eventCodeCommandStatus → ev.code ≠ eventCodeLeMeta →
        (dispatchEvent s ev).cm = s.cm
        ∧ (dispatchEvent s ev).invocations =
            (match lookupHandler s.eventHandlers ev.code with
             | some h => s.invocations ++ [(h, ev)]
             | none => s.invocations)
        ∧ (dispatchEvent s ev).dropped =
            (match lookupHandler s.eventHandlers ev.code with
             | some _ => s.dropped
             | none => s.dropped ++ [ev])) := by
  refine ⟨?_, ?_, ?_, ?_⟩
  · unfold dispatchEvent
    by_cases h1 : ev.code = eventCodeCommandComplete ∨
        ev.code = eventCodeCommandStatus
    · by_cases h2 : s.fsm = FsmState.resetting ∧
          ev.opcodeField = opcodeReset <;> simp [h1, h2]
    · by_cases h3 : ev.code = eventCodeLeMeta
      · simp only [if_neg h1, if_pos h3]
        rcases hl : lookupHandler s.leHandlers ev.subeventCode <;>
          simp [hl]
      · simp only [if_neg h1, if_neg h3]
        rcases hl : lookupHandler s.eventHandlers ev.code <;> simp [hl]
  · intro h1
    unfold dispatchEvent
    by_cases h2 : s.fsm = FsmState.resetting ∧
        ev.opcodeField = opcodeReset <;> simp [h1, h2]
  · intro h3
    have h1 : ¬(ev.code = eventCodeCommandComplete ∨
        ev.code = eventCodeCommandStatus) := by
      rw [h3]
      decide
    unfold dispatchEvent
    simp only [if_neg h1, if_pos h3]
    rcases hl : lookupHandler s.leHandlers ev.subeventCode <;> simp [hl]
  · intro hc hs h3
    have h1 : ¬(ev.code = eventCodeCommandComplete ∨
        ev.code = eventCodeCommandStatus) := by
      rintro (h | h) <;> [exact hc h; exact hs h]
    unfold dispatchEvent
    simp only [if_neg h1, if_neg h3]
    rcases hl : lookupHandler s.eventHandlers ev.code <;> simp [hl]

theorem dispatchExclusivity_witness :
    (dispatchEvent wEngine wEvNoop).invocations = wEngine.invocations
    ∧ (dispatchEvent wEngine wEvNoop).dropped = wEngine.dropped
    ∧ (dispatchEvent wEngine wEvLe).invocations =
        wEngine.invocations ++ [(9, wEvLe)]
    ∧ (dispatchEvent wEngine wEvConn).invocations =
        wEngine.invocations ++ [(7, wEvConn)] :=
  ⟨((dispatchExclusivity wEngine wEvNoop).2.1 (Or.inl rfl)).1,
   ((dispatchExclusivity wEngine wEvNoop).2.1 (Or.inl rfl)).2.1,
   ((dispatchExclusivity wEngine wEvLe).2.2.1 rfl).2.1,
   ((dispatchExclusivity wEngine wEvConn).2.2.2 (by decide) (by decide)
      (by decide)).2.1⟩

/-- C6: after `RegisterEnqueue(supplier)`, the outbound pump pulls
exactly one item from the supplier, sends it via the HAL sink of this
kind, and clears the supplier registration before any further item is
accepted: pumping again without re-registering sends nothing, and only
after re-registering is the next single item pulled and sent. -/
theorem singleInFlightDataSlot (α : Type) (q : QueueEnd α) (sid sid2 : Nat)
    (supply : Nat → α) :
    (pumpOutbound (registerEnqueue q sid) supply).sentData =
        q.sentData ++ [supply sid]
    ∧ (pumpOutbound (registerEnqueue q sid) supply).enqueueReg = none
    ∧ pumpOutbound (pumpOutbound (registerEnqueue q sid) supply) supply =
        pumpOutbound (registerEnqueue q sid) supply
    ∧ (pumpOutbound
        (registerEnqueue (pumpOutbound (registerEnqueue q sid) supply) sid2)
        supply).sentData = q.sentData ++ [supply sid] ++ [supply sid2] := by
  exact ⟨rfl, rfl, rfl, rfl⟩

theorem qRun_conservation (α : Type) (q : QueueEnd α)
    (t : List (QAction α)) :
    (qRun q t).deliveredData ++ (qRun q t).buffer =
      q.deliveredData ++ q.buffer ++ qArrivals t := by
  induction t generalizing q with
  | nil => simp [qRun, qArrivals]
  | cons a rest ih =>
      rcases a with x | _ | hid | _
      · rw [qRun, ih]
        simp [qStep, onInboundData, qArrivals, List.append_assoc]
      · rw [qRun, ih]
        rcases hb : q.buffer with _ | ⟨y, ys⟩ <;>
          simp [qStep, tryDequeue, hb, qArrivals, List.append_assoc]
      · rw [qRun, ih]
        simp [qStep, registerDequeue, qArrivals]
      · rw [qRun, ih]
        simp [qStep, unregisterDequeue, qArrivals]

theorem qRun_arrive_all (α : Type) (q : QueueEnd α) (xs : List α) :
    qRun q (xs.map QAction.arrive) = { q with buffer := q.buffer ++ xs } := by
  induction xs generalizing q with
  | nil => simp [qRun]
  | cons x rest ih =>
      rw [List.map_cons, qRun, qStep, onInboundData, ih]
      simp [List.append_assoc]

theorem qRun_drain_all (α : Type) (q : QueueEnd α) (n : Nat)
    (h : q.buffer.length = n) :
    qRun q (List.replicate n QAction.tryDeq) =
      { q with
        buffer := []
        deliveredData := q.deliveredData ++ q.buffer } := by
  induction n generalizing q with
  | zero =>
      rw [List.length_eq_zero] at h
      cases q
      simp_all [qRun]
  | succ m ih =>
      rcases hb : q.buffer with _ | ⟨y, ys⟩
      · rw [hb] at h
        simp at h
      · rw [List.replicate_succ, qRun, qStep, tryDequeue, hb]
        rw [ih]
        · simp [hb, List.append_assoc]
        · rw [hb] at h
          simpa using h

theorem qRun_append (α : Type) (q : QueueEnd α) (t u : List (QAction α)) :
    qRun q (t ++ u) = qRun (qRun q t) u := by
  induction t generalizing q with
  | nil => rfl
  | cons a rest ih =>
      rw [List.cons_append, qRun, qRun, ih]

/-- C7: inbound data delivery preserves arrival order with no gaps or
duplicates and never drops: in every interleaving of arrivals,
registrations and dequeues, the delivered items followed by the still
buffered ones are exactly the arrivals in order (so arrivals while no
handler is registered are buffered, unbounded, not dropped); in the 100
packet ACL scenario (and the ISO analogue) the delivered sequence
numbers are exactly 0..99 in strictly ascending order. -/
theorem inboundOrderPreserved :
    (∀ (α : Type) (q : QueueEnd α) (t : List (QAction α)),
        (qRun q t).deliveredData ++ (qRun q t).buffer =
          q.deliveredData ++ q.buffer ++ qArrivals t)
    ∧ (∀ (α : Type) (q : QueueEnd α) (x : α),
        (onInboundData (unregisterDequeue q) x).buffer = q.buffer ++ [x])
    ∧ (qRun (emptyQueueEnd AclPkt) aclScenario).deliveredData =
        (List.range 100).map aclArrival
    ∧ ((qRun (emptyQueueEnd AclPkt) aclScenario).deliveredData).map aclSeq =
        List.range 100
    ∧ (qRun (emptyQueueEnd IsoPkt) isoScenario).deliveredData =
        (List.range 100).map isoArrival
    ∧ ((qRun (emptyQueueEnd IsoPkt) isoScenario).deliveredData).map isoSeq =
        List.range 100 := by
  have hacl : (qRun (emptyQueueEnd AclPkt) aclScenario).deliveredData =
      (List.range 100).map aclArrival := by
    unfold aclScenario
    rw [qRun_append, qRun_arrive_all, qRun_drain_all]
    · simp [emptyQueueEnd]
    · simp [emptyQueueEnd]
  have hiso : (qRun (emptyQueueEnd IsoPkt) isoScenario).deliveredData =
      (List.range 100).map isoArrival := by
    unfold isoScenario
    rw [qRun_append, qRun_arrive_all, qRun_drain_all]
    · simp [emptyQueueEnd]
    · simp [emptyQueueEnd]
  refine ⟨qRun_conservation, ?_, hacl, ?_, hiso, ?_⟩
  · intro α q x
    simp [onInboundData, unregisterDequeue]
  · rw [hacl, List.map_map]
    have : ∀ i, aclSeq (aclArrival i) = i := by
      intro i
      simp [aclSeq, aclArrival, word16At, byteAt]
      omega
    calc (List.range 100).map (aclSeq ∘ aclArrival)
        = (List.range 100).map id := List.map_congr_left (fun i _ => this i)
      _ = List.range 100 := List.map_id _
  · rw [hiso, List.map_map]
    have : ∀ i, isoSeq (isoArrival i) = i := by
      intro i
      simp [isoSeq, isoArrival, word16At, byteAt]
      omega
    calc (List.range 100).map (isoSeq ∘ isoArrival)
        = (List.range 100).map id := List.map_congr_left (fun i _ => this i)
      _ = List.range 100 := List.map_id _

theorem decode_encodeCommand (c : CommandPkt) (h : wfCommand c) :
    decodeCommand (encodeCommand c) = some c := by
  obtain ⟨h1, h2, h3⟩ := h
  show decodeCommand
      (c.opcode % 256 :: c.opcode / 256 :: c.payload.length :: c.payload) =
    some c
  rw [decodeCommand, if_pos]
  · have hm : c.opcode % 256 + 256 * (c.opcode / 256) = c.opcode := by
      omega
    rw [hm]
  · refine ⟨by omega, by omega, rfl, h3⟩

theorem decode_encodeEvent (e : EventPkt) (h : wfEvent e) :
    decodeEvent (encodeEvent e) = some e := by
  obtain ⟨h1, h2, h3⟩ := h
  show decodeEvent (e.code :: e.payload.length :: e.payload) = some e
  rw [decodeEvent, if_pos]
  exact ⟨h1, rfl, h3⟩

theorem decode_encodeAcl (a : AclPkt) (h : wfAcl a) :
    decodeAcl (encodeAcl a) = some a := by
  obtain ⟨h1, h2, h3, h4, h5⟩ := h
  show decodeAcl
      (a.handle % 256 :: (a.handle / 256 + 16 * a.pb + 64 * a.bc) ::
        a.payload.length % 256 :: a.payload.length / 256 :: a.payload) =
    some a
  rw [decodeAcl, if_pos]
  · have e1 : a.handle % 256 +
        256 * ((a.handle / 256 + 16 * a.pb + 64 * a.bc) % 16) = a.handle := by
      omega
    have e2 : (a.handle / 256 + 16 * a.pb + 64 * a.bc) / 16 % 4 = a.pb := by
      omega
    have e3 : (a.handle / 256 + 16 * a.pb + 64 * a.bc) / 64 = a.bc := by
      omega
    rw [e1, e2, e3]
  · refine ⟨by omega, by omega, by omega, by omega, by omega, h5⟩

theorem decode_encodeIso (i : IsoPkt) (h : wfIso i) :
    decodeIso (encodeIso i) = some i := by
  obtain ⟨h1, h2, h3, h4, h5⟩ := h
  show decodeIso
      (i.handle % 256 :: (i.handle / 256 + 16 * i.pb + 64 * i.ts) ::
        i.payload.length % 256 :: i.payload.length / 256 :: i.payload) =
    some i
  rw [decodeIso, if_pos]
  · have e1 : i.handle % 256 +
        256 * ((i.handle / 256 + 16 * i.pb + 64 * i.ts) % 16) = i.handle := by
      omega
    have e2 : (i.handle / 256 + 16 * i.pb + 64 * i.ts) / 16 % 4 = i.pb := by
      omega
    have e3 : (i.handle / 256 + 16 * i.pb + 64 * i.ts) / 64 = i.ts := by
      omega
    rw [e1, e2, e3]
  · refine ⟨by omega, by omega, by omega, by omega, by omega, h5⟩

theorem wfEvent_commandComplete (p : CommandCompletePkt)
    (h : wfCommandComplete p) : wfEvent (eventOfCommandComplete p) := by
  obtain ⟨h1, h2, h3, h4⟩ := h
  refine ⟨by norm_num [eventOfCommandComplete, eventCodeCommandComplete],
    ?_, ?_⟩
  · simp [eventOfCommandComplete]
    omega
  · intro b hb
    simp [eventOfCommandComplete] at hb
    rcases hb with hb | hb | hb | hb
    · omega
    · omega
    · omega
    · exact h4 b hb

theorem decode_eventOfCommandComplete (p : CommandCompletePkt)
    (h : wfCommandComplete p) :
    decodeCommandComplete (eventOfCommandComplete p) = some p := by
  obtain ⟨h1, h2, h3, h4⟩ := h
  show decodeCommandComplete
      ⟨eventCodeCommandComplete,
        p.numPackets :: p.opcode % 256 :: p.opcode / 256 :: p.ret⟩ =
    some p
  rw [decodeCommandComplete, if_pos]
  · have hm : p.opcode % 256 + 256 * (p.opcode / 256) = p.opcode := by
      omega
    rw [hm]
  · refine ⟨rfl, h1, by omega, by omega⟩

theorem wfEvent_commandStatus (p : CommandStatusPkt)
    (h : wfCommandStatus p) : wfEvent (eventOfCommandStatus p) := by
  obtain ⟨h1, h2, h3⟩ := h
  refine ⟨by norm_num [eventOfCommandStatus, eventCodeCommandStatus],
    by norm_num [eventOfCommandStatus], ?_⟩
  intro b hb
  simp [eventOfCommandStatus] at hb
  rcases hb with hb | hb | hb | hb <;> omega

theorem decode_eventOfCommandStatus (p : CommandStatusPkt)
    (h : wfCommandStatus p) :
    decodeCommandStatus (eventOfCommandStatus p) = some p := by
  obtain ⟨h1, h2, h3⟩ := h
  show decodeCommandStatus
      ⟨eventCodeCommandStatus,
        [p.status, p.numPackets, p.opcode % 256, p.opcode / 256]⟩ =
    some p
  rw [decodeCommandStatus, if_pos]
  · have hm : p.opcode % 256 + 256 * (p.opcode / 256) = p.opcode := by
      omega
    rw [hm]
  · refine ⟨rfl, h1, h2, by omega, by omega⟩

theorem wfEvent_leConnComplete (p : LeConnCompletePkt)
    (h : wfLeConnComplete p) : wfEvent (eventOfLeConnComplete p) := by
  obtain ⟨h1, h2, h3, h4, h5, h6, h7, h8, h9, h10⟩ := h
  refine ⟨by norm_num [eventOfLeConnComplete, eventCodeLeMeta], ?_, ?_⟩
  · simp [eventOfLeConnComplete, h5]
  · intro b hb
    simp only [eventOfLeConnComplete] at hb
    rcases List.mem_append.1 hb with hb2 | hb2
    · rcases List.mem_append.1 hb2 with hb3 | hb3
      · simp only [List.mem_cons, List.not_mem_nil, or_false] at hb3
        rcases hb3 with rfl | rfl | rfl | rfl | rfl | rfl
        · norm_num [subeventLeConnectionComplete]
        · omega
        · omega
        · omega
        · omega
        · omega
      · exact h6 b hb3
    · simp only [List.mem_cons, List.not_mem_nil, or_false] at hb2
      rcases hb2 with rfl | rfl | rfl | rfl | rfl | rfl | rfl <;> omega

theorem decode_eventOfLeConnComplete (p : LeConnCompletePkt)
    (h : wfLeConnComplete p) :
    decodeLeConnComplete (eventOfLeConnComplete p) = some p := by
  obtain ⟨h1, h2, h3, h4, h5, h6, h7, h8, h9, h10⟩ := h
  rcases p with ⟨st, hd, role, pat, addr, ci, cl, sup, acc⟩
  simp only at h5
  rcases addr with _ | ⟨a0, addr⟩
  · simp at h5
  rcases addr with _ | ⟨a1, addr⟩
  · simp at h5
  rcases addr with _ | ⟨a2, addr⟩
  · simp at h5
  rcases addr with _ | ⟨a3, addr⟩
  · simp at h5
  rcases addr with _ | ⟨a4, addr⟩
  · simp at h5
  rcases addr with _ | ⟨a5, addr⟩
  · simp at h5
  rcases addr with _ | ⟨a6, addr⟩
  swap
  · simp at h5
  have hb0 : a0 < 256 := h6 a0 (by simp)
  have hb1 : a1 < 256 := h6 a1 (by simp)
  have hb2 : a2 < 256 := h6 a2 (by simp)
  have hb3 : a3 < 256 := h6 a3 (by simp)
  have hb4 : a4 < 256 := h6 a4 (by simp)
  have hb5 : a5 < 256 := h6 a5 (by simp)
  show decodeLeConnComplete
      ⟨eventCodeLeMeta,
        [subeventLeConnectionComplete, st, hd % 256, hd / 256, role, pat,
         a0, a1, a2, a3, a4, a5, ci % 256, ci / 256, cl % 256, cl / 256,
         sup % 256, sup / 256, acc]⟩ = _
  rw [decodeLeConnComplete, if_pos]
  · have e1 : hd % 256 + 256 * (hd / 256) = hd := by omega
    have e2 : ci % 256 + 256 * (ci / 256) = ci := by omega
    have e3 : cl % 256 + 256 * (cl / 256) = cl := by omega
    have e4 : sup % 256 + 256 * (sup / 256) = sup := by omega
    rw [e1, e2, e3, e4]
  · simp only at h1 h2 h3 h4 h7 h8 h9 h10
    refine ⟨rfl, rfl, h1, by omega, by omega, h3, h4, hb0, hb1, hb2, hb3,
      hb4, hb5, by omega, by omega, by omega, by omega, by omega, by omega,
      h10⟩

theorem isLeMeta_leConnComplete (p : LeConnCompletePkt) :
    isLeMetaEvent (eventOfLeConnComplete p) = true := by
  rfl

/-- C8: for every packet kind exercised by the tests, decoding the bytes
produced by serializing a builder yields an equivalent valid view, at
every specialization level: commands (in particular the Reset, which also
passes the Reset-specific validity check), events, ACL data, ISO data,
and the Command Complete, Command Status and (through the LE Meta layer)
LE Connection Complete event specializations, each reproducing all field
values. -/
theorem roundTripIdempotence (c : CommandPkt) (e : EventPkt) (a : AclPkt)
    (i : IsoPkt) (cc : CommandCompletePkt) (cs : CommandStatusPkt)
    (lcc : LeConnCompletePkt) (hc : wfCommand c) (he : wfEvent e)
    (ha : wfAcl a) (hi : wfIso i) (hcc : wfCommandComplete cc)
    (hcs : wfCommandStatus cs) (hlcc : wfLeConnComplete lcc) :
    decodeCommand (encodeCommand c) = some c
    ∧ decodeCommand (encodeCommand resetCommand) = some resetCommand
    ∧ isResetCommand resetCommand = true
    ∧ decodeEvent (encodeEvent e) = some e
    ∧ decodeAcl (encodeAcl a) = some a
    ∧ decodeIso (encodeIso i) = some i
    ∧ decodeEvent (encodeEvent (eventOfCommandComplete cc)) =
        some (eventOfCommandComplete cc)
    ∧ decodeCommandComplete (eventOfCommandComplete cc) = some cc
    ∧ decodeEvent (encodeEvent (eventOfCommandStatus cs)) =
        some (eventOfCommandStatus cs)
    ∧ decodeCommandStatus (eventOfCommandStatus cs) = some cs
    ∧ decodeEvent (encodeEvent (eventOfLeConnComplete lcc)) =
        some (eventOfLeConnComplete lcc)
    ∧ isLeMetaEvent (eventOfLeConnComplete lcc) = true
    ∧ decodeLeConnComplete (eventOfLeConnComplete lcc) = some lcc := by
  refine ⟨decode_encodeCommand c hc, by decide, by decide,
    decode_encodeEvent e he, decode_encodeAcl a ha, decode_encodeIso i hi,
    decode_encodeEvent _ (wfEvent_commandComplete cc hcc),
    decode_eventOfCommandComplete cc hcc,
    decode_encodeEvent _ (wfEvent_commandStatus cs hcs),
    decode_eventOfCommandStatus cs hcs,
    decode_encodeEvent _ (wfEvent_leConnComplete lcc hlcc),
    isLeMeta_leConnComplete lcc,
    decode_eventOfLeConnComplete lcc hlcc⟩

theorem roundTripIdempotence_witness :
    decodeCommand (encodeCommand wCreateConnection) = some wCreateConnection
    ∧ decodeCommand (encodeCommand resetCommand) = some resetCommand
    ∧ isResetCommand resetCommand = true
    ∧ decodeEvent (encodeEvent resetCompleteEvent) = some resetCompleteEvent
    ∧ decodeAcl (encodeAcl wAcl) = some wAcl
    ∧ decodeIso (encodeIso wIso) = some wIso
    ∧ decodeEvent (encodeEvent (eventOfCommandComplete wCommandComplete)) =
        some (eventOfCommandComplete wCommandComplete)
    ∧ decodeCommandComplete (eventOfCommandComplete wCommandComplete) =
        some wCommandComplete
    ∧ decodeEvent (encodeEvent (eventOfCommandStatus wCommandStatus)) =
        some (eventOfCommandStatus wCommandStatus)
    ∧ decodeCommandStatus (eventOfCommandStatus wCommandStatus) =
        some wCommandStatus
    ∧ decodeEvent (encodeEvent (eventOfLeConnComplete wLeConnComplete)) =
        some (eventOfLeConnComplete wLeConnComplete)
    ∧ isLeMetaEvent (eventOfLeConnComplete wLeConnComplete) = true
    ∧ decodeLeConnComplete (eventOfLeConnComplete wLeConnComplete) =
        some wLeConnComplete :=
  roundTripIdempotence wCreateConnection resetCompleteEvent wAcl wIso
    wCommandComplete wCommandStatus wLeConnComplete (by decide) (by decide)
    (by decide) (by decide) (by decide) (by decide) (by decide)

/-- C9: when the response timeout expires with a sent command still
awaiting its response, the manager escalates by sending the
CONTROLLER_DEBUG_INFO diagnostic command to the controller, and nothing
else changes: no continuation is invoked with a synthetic error (the
delivered log is untouched) and the pending entries stay pending. -/
theorem timeoutEscalation (s : CmState) (h : s.awaiting ≠ []) :
    (onResponseTimeout s).sentCommands =
        s.sentCommands ++ [controllerDebugInfoCommand]
    ∧ (onResponseTimeout s).delivered = s.delivered
    ∧ (onResponseTimeout s).awaiting = s.awaiting
    ∧ (onResponseTimeout s).commandQueue = s.commandQueue
    ∧ (onResponseTimeout s).creditCount = s.creditCount
    ∧ controllerDebugInfoCommand.opcode = opcodeControllerDebugInfo := by
  rcases haw : s.awaiting with _ | ⟨e, rest⟩
  · exact absurd haw h
  · unfold onResponseTimeout
    rw [haw]
    exact ⟨rfl, rfl, rfl, rfl, rfl, rfl⟩

theorem timeoutEscalation_witness :
    (onResponseTimeout wAwaitState).sentCommands =
        wAwaitState.sentCommands ++ [controllerDebugInfoCommand]
    ∧ (onResponseTimeout wAwaitState).delivered = wAwaitState.delivered :=
  ⟨(timeoutEscalation wAwaitState (by decide)).1,
   (timeoutEscalation wAwaitState (by decide)).2.1⟩

/-- C10: every octet returned by ReceivePacketType passes
ValidateTypeOctet (it lies between DATA_TYPE_COMMAND and DATA_TYPE_SCO);
an out-of-range octet is rejected (none) rather than returned; and the
partial-transfer helpers ReceiveAll/SendAll fail outright instead of
succeeding with fewer octets than requested: a success returns exactly
the requested count (and for ReceiveAll, the octets actually at the head
of the stream). -/
theorem packetTypeValidation :
    (∀ (stream : List Nat) (t : Nat) (rest : List Nat),
        PacketStream.receivePacketType stream = some (t, rest) →
          PacketStream.validateTypeOctet t = true)
    ∧ (∀ (t : Nat) (rest : List Nat),
        PacketStream.validateTypeOctet t = false →
          PacketStream.receivePacketType (t :: rest) = none)
    ∧ (∀ (s : List Nat) (n : Nat) (xs r : List Nat),
        PacketStream.receiveAll s n = some (xs, r) →
          xs.length = n ∧ xs ++ r = s)
    ∧ (∀ (s : List Nat) (n : Nat), s.length < n →
        PacketStream.receiveAll s n = none)
    ∧ (∀ (s : List Nat) (n : Nat) (out : List Nat),
        PacketStream.sendAll s n = some out → out.length = n)
    ∧ (∀ (s : List Nat) (n : Nat), s.length < n →
        PacketStream.sendAll s n = none) := by
  refine ⟨?_, ?_, ?_, ?_, ?_, ?_⟩
  · intro stream t rest h
    unfold PacketStream.receivePacketType at h
    rcases hr : PacketStream.receiveAll stream 1 with _ | ⟨octets, r⟩
    · rw [hr] at h
      exact absurd h (by simp)
    · rw [hr] at h
      simp only at h
      by_cases hv : PacketStream.validateTypeOctet (octets.headD 0)
      · rw [if_pos hv] at h
        obtain ⟨rfl, rfl⟩ : octets.headD 0 = t ∧ r = rest := by
          simpa using h
        exact hv
      · rw [if_neg hv] at h
        exact absurd h (by simp)
  · intro t rest h
    unfold PacketStream.receivePacketType PacketStream.receiveAll
    have hl : 1 ≤ (t :: rest).length := by simp
    rw [if_pos hl]
    simp [h]
  · intro s n xs r h
    unfold PacketStream.receiveAll at h
    by_cases hl : n ≤ s.length
    · rw [if_pos hl] at h
      obtain ⟨rfl, rfl⟩ : s.take n = xs ∧ s.drop n = r := by
        simpa using h
      exact ⟨List.length_take_of_le hl, List.take_append_drop n s⟩
    · rw [if_neg hl] at h
      exact absurd h (by simp)
  · intro s n h
    unfold PacketStream.receiveAll
    rw [if_neg (by omega)]
  · intro s n out h
    unfold PacketStream.sendAll at h
    by_cases hl : n ≤ s.length
    · rw [if_pos hl] at h
      obtain rfl : s.take n = out := by simpa using h
      exact List.length_take_of_le hl
    · rw [if_neg hl] at h
      exact absurd h (by simp)
  · intro s n h
    unfold PacketStream.sendAll
    rw [if_neg (by omega)]

theorem packetTypeValidation_witness :
    PacketStream.validateTypeOctet 2 = true
    ∧ PacketStream.receivePacketType
        (PacketStream.DATA_TYPE_EVENT :: [0x0E, 0]) = none
    ∧ ([7, 8].length = 2 ∧ [7, 8] ++ [9] = [7, 8, 9])
    ∧ PacketStream.receiveAll [7, 8] 3 = none
    ∧ PacketStream.sendAll [7, 8] 3 = none :=
  ⟨packetTypeValidation.1 [2, 9] 2 [9] rfl,
   packetTypeValidation.2.1 PacketStream.DATA_TYPE_EVENT [0x0E, 0]
     (by decide),
   packetTypeValidation.2.2.1 [7, 8, 9] 2 [7, 8] [9] rfl,
   packetTypeValidation.2.2.2.1 [7, 8] 3 (by decide),
   packetTypeValidation.2.2.2.2.2 [7, 8] 3 (by decide)⟩

end Hci
